import Mathlib

/-!
A shallow embedding of the program `historical_price_scraper.py` together
with theorems about its documented behaviour.

Conventions used throughout:

* Machine text is `String` or `List Char`; the Python `str.strip` is
  modelled by `pyStrip`, and the whitespace class of the Python regular
  expression module and of `str.strip` by `pyIsSpace`.
* Calendar dates are `Date` records.  Ordering and day arithmetic of the
  Python `date` type are represented through its proleptic-Gregorian
  ordinal (`Date.toOrdinal`, exactly the formula of CPython
  `date.toordinal`), so the state `cur` of the day loop is carried as an
  ordinal, `cur += timedelta(days=1)` is ordinal successor, and
  `cur <= today_local` is ordinal comparison.
* Browser interaction is abstracted by oracles: per (frame, selector) DOM
  probe results, per attempt scrape outcomes, and per poll price-cell
  texts.  A Python exception that the code swallows inside a `try` block
  is an oracle value (`Probe.err`, `AttemptResult.err`, a `false`
  interaction result, ...), never a Lean error, so every embedded
  function is total.
-/

namespace Scraper

/-! ### Character classes -/

/-- The class `[0-9]` of the regular expressions in the program. -/
def isDig (c : Char) : Bool := decide ('0' ≤ c) && decide (c ≤ '9')

/-- Numeric value of a digit character. -/
def digitVal (c : Char) : Nat := c.toNat - '0'.toNat

/-- The whitespace class of Python: the characters matched by the regex
class of whitespace and stripped by a bare `str.strip()`. -/
def pyIsSpace (c : Char) : Bool :=
  c = ' ' || c = '\t' || c = '\n' || c = '\r' || c = '\x0b' || c = '\x0c' ||
  c = '\x1c' || c = '\x1d' || c = '\x1e' || c = '\x1f' || c = '\x85' || c = '\xa0' ||
  c = '\u1680' || (decide ('\u2000' ≤ c) && decide (c ≤ '\u200a')) ||
  c = '\u2028' || c = '\u2029' || c = '\u202f' || c = '\u205f' || c = '\u3000'

/-- Python `str.strip()` on a character list: drop leading and trailing
whitespace. -/
def pyStripL (l : List Char) : List Char :=
  ((l.dropWhile pyIsSpace).reverse.dropWhile pyIsSpace).reverse

/-- Python `str.strip()`. -/
def pyStrip (s : String) : String := String.mk (pyStripL s.data)

/-- The character substitution of `raw.replace(" ", " ")`: replacing
a one-character needle by a one-character replacement is a character map. -/
def nbspToSpace (c : Char) : Char := if c = '\xa0' then ' ' else c

/-- `raw.replace(" ", " ")`. -/
def replaceNbsp (s : String) : String := String.mk (s.data.map nbspToSpace)

/-! ### The price pattern

`PRICE_REGEX = re.compile(r"-?\$?\s*([0-9]{1,3}(?:,[0-9]{3})*(?:\.[0-9]{2})|[0-9]+(?:\.[0-9]{2}))")`

The functions below implement `PRICE_REGEX.search` for exactly this
pattern with the backtracking semantics of the Python engine: leftmost
starting position wins; at a position, an optional item prefers to
consume, a star is greedy with backtracking, and the alternation tries
its left branch first.  Each function returns the characters consumed
from its sub-pattern on (group content) together with the rest of the
input. -/

/-- The tail `\.[0-9]{2}` of both branches of the group. -/
def dotTwoDigits : List Char → Option (List Char × List Char)
  | [] => none
  | c :: rest =>
    if c = '.' then
      match rest with
      | a :: b :: r2 => if isDig a && isDig b then some ([c, a, b], r2) else none
      | _ => none
    else none

/-- `(?:,[0-9]{3})*(?:\.[0-9]{2})`: greedily match comma groups, falling
back to fewer repetitions whenever the continuation fails. -/
def commaGroupsThenDot : List Char → Option (List Char × List Char)
  | [] => dotTwoDigits []
  | c :: rest =>
    if c = ',' then
      match rest with
      | a :: b :: c2 :: r2 =>
        if isDig a && isDig b && isDig c2 then
          match commaGroupsThenDot r2 with
          | some (g, r) => some (c :: a :: b :: c2 :: g, r)
          | none => dotTwoDigits (c :: rest)
        else dotTwoDigits (c :: rest)
      | _ => dotTwoDigits (c :: rest)
    else dotTwoDigits (c :: rest)

/-- Exactly `n` digits. -/
def takeDigitsN : Nat → List Char → Option (List Char × List Char)
  | 0, cs => some ([], cs)
  | n + 1, c :: rest =>
    if isDig c then (takeDigitsN n rest).map (fun p => (c :: p.1, p.2)) else none
  | _ + 1, [] => none

/-- A fixed-width digit prefix followed by `(?:,[0-9]{3})*(?:\.[0-9]{2})`. -/
def prefixThenCommas (n : Nat) (cs : List Char) : Option (List Char × List Char) :=
  match takeDigitsN n cs with
  | some (p, r) =>
    match commaGroupsThenDot r with
    | some (g, r2) => some (p ++ g, r2)
    | none => none
  | none => none

/-- The left branch `[0-9]{1,3}(?:,[0-9]{3})*(?:\.[0-9]{2})`; the greedy
`{1,3}` tries a three-digit prefix first, then two, then one. -/
def branchGrouped (cs : List Char) : Option (List Char × List Char) :=
  match prefixThenCommas 3 cs with
  | some g => some g
  | none =>
    match prefixThenCommas 2 cs with
    | some g => some g
    | none => prefixThenCommas 1 cs

/-- `[0-9]*(?:\.[0-9]{2})` with greedy backtracking, the suffix of the
right branch after its first mandatory digit. -/
def digitsStarThenDot : List Char → Option (List Char × List Char)
  | [] => dotTwoDigits []
  | c :: rest =>
    if isDig c then
      match digitsStarThenDot rest with
      | some (g, r) => some (c :: g, r)
      | none => dotTwoDigits (c :: rest)
    else dotTwoDigits (c :: rest)

/-- The right branch `[0-9]+(?:\.[0-9]{2})`. -/
def branchPlain : List Char → Option (List Char × List Char)
  | c :: rest =>
    if isDig c then (digitsStarThenDot rest).map (fun p => (c :: p.1, p.2)) else none
  | [] => none

/-- The capturing group: left branch first, then the right one. -/
def groupMatch (cs : List Char) : Option (List Char × List Char) :=
  match branchGrouped cs with
  | some g => some g
  | none => branchPlain cs

/-- An optional literal character followed by continuation `k`, preferring
to consume the character when present. -/
def optCharThen (c : Char) (k : List Char → Option (List Char × List Char)) :
    List Char → Option (List Char × List Char)
  | [] => k []
  | c2 :: rest =>
    if c2 = c then
      match k rest with
      | some g => some g
      | none => k (c2 :: rest)
    else k (c2 :: rest)

/-- `\s*` followed by continuation `k`, greedy with backtracking. -/
def spacesThen (k : List Char → Option (List Char × List Char)) :
    List Char → Option (List Char × List Char)
  | [] => k []
  | c :: rest =>
    if pyIsSpace c then
      match spacesThen k rest with
      | some g => some g
      | none => k (c :: rest)
    else k (c :: rest)

/-- The whole pattern anchored at the current position:
`-? \$? \s*` and then the capturing group. -/
def matchPriceAt : List Char → Option (List Char × List Char) :=
  optCharThen '-' (optCharThen '$' (spacesThen groupMatch))

/-- `PRICE_REGEX.search` on a character list: try every start position
from the left; the result is the content of group 1 of the first match. -/
def priceSearchL : List Char → Option (List Char)
  | [] =>
    match matchPriceAt [] with
    | some (g, _) => some g
    | none => none
  | c :: rest =>
    match matchPriceAt (c :: rest) with
    | some (g, _) => some g
    | none => priceSearchL rest

/-- `PRICE_REGEX.search(s)`, returning group 1 of the match when any. -/
def priceSearch (s : String) : Option String := (priceSearchL s.data).map String.mk

/-- The function `clean_price` of the program:

    def clean_price(raw: str) -> str:
        if not raw:
            return ""
        m = PRICE_REGEX.search(raw.replace(" ", " ").strip())
        if not m:
            return raw.strip()
        return m.group(1).replace(",", "") -/
def clean_price (raw : String) : String :=
  if raw = "" then ""
  else
    match priceSearch (pyStrip (replaceNbsp raw)) with
    | none => pyStrip raw
    | some g => String.mk (g.data.filter (fun c => c != ','))

example : clean_price "$1,234.56" = "1234.56" := by decide
example : clean_price "N/A" = "N/A" := by decide
example : clean_price "12.34" = "12.34" := by decide
example : clean_price "-$1,234.56" = "1234.56" := by decide
example : clean_price "-12.34" = "12.34" := by decide
example : clean_price "" = "" := by decide
example : clean_price "  $ 9.99 was seen" = "9.99" := by decide
example : clean_price "1234" = "1234" := by decide

/-! ### Calendar dates

The program manipulates dates through `datetime.date`.  `Date.toOrdinal`
is the formula of CPython `date.toordinal`; `fromOrdinal` its inverse,
used by the model only to render `cur.isoformat()` strings. -/

/-- The Gregorian leap-year rule. -/
def isLeap (y : Nat) : Bool := (y % 4 == 0 && y % 100 != 0) || y % 400 == 0

/-- Number of days of month `m` (1 to 12) in year `y`. -/
def daysInMonth (y m : Nat) : Nat :=
  if m = 2 then (if isLeap y then 29 else 28)
  else if m = 4 || m = 6 || m = 9 || m = 11 then 30
  else 31

/-- Days of year `y` that precede the first day of month `m` (1-based). -/
def daysBeforeMonth (y : Nat) : Nat → Nat
  | 0 => 0
  | 1 => 0
  | m + 1 => daysBeforeMonth y m + daysInMonth y m

/-- A calendar date, as the `datetime.date` value class. -/
structure Date where
  year : Nat
  month : Nat
  day : Nat
deriving DecidableEq

/-- CPython `date.toordinal()`: the day number in the proleptic Gregorian
calendar, with January 1 of year 1 as ordinal 1.  Comparison and
day-stepping of `date` values agree with comparison and successor of
their ordinals. -/
def Date.toOrdinal (d : Date) : Nat :=
  365 * (d.year - 1) + (d.year - 1) / 4 - (d.year - 1) / 100 + (d.year - 1) / 400 +
    daysBeforeMonth d.year d.month + d.day

def DI400Y : Nat := 146097
def DI100Y : Nat := 36524
def DI4Y : Nat := 1461

/-- Largest month `m` at most `12` whose cumulative day count is at most
`n` (a 0-based day of the year): a linear search, equivalent to the
estimate-and-fix month computation of CPython `_ord2ymd`. -/
def monthScan (y n : Nat) : Nat → Nat
  | 0 => 1
  | m + 1 => if daysBeforeMonth y (m + 1) ≤ n then m + 1 else monthScan y n m

/-- CPython `date.fromordinal` (the helper `_ord2ymd`). -/
def fromOrdinal (nOrd : Nat) : Date :=
  let n := nOrd - 1
  let n400 := n / DI400Y
  let r400 := n % DI400Y
  let n100 := r400 / DI100Y
  let r100 := r400 % DI100Y
  let n4 := r100 / DI4Y
  let r4 := r100 % DI4Y
  let n1 := r4 / 365
  let dayOfYear := r4 % 365
  let year := n400 * 400 + 1 + n100 * 100 + n4 * 4 + n1
  if n1 = 4 || n100 = 4 then ⟨year - 1, 12, 31⟩
  else
    let m := monthScan year dayOfYear 12
    ⟨year, m, dayOfYear - daysBeforeMonth year m + 1⟩

def pad2 (n : Nat) : String := if n < 10 then "0" ++ toString n else toString n

def pad4 (n : Nat) : String :=
  if n < 10 then "000" ++ toString n
  else if n < 100 then "00" ++ toString n
  else if n < 1000 then "0" ++ toString n
  else toString n

/-- Python `date.isoformat()`. -/
def Date.isoformat (d : Date) : String :=
  pad4 d.year ++ "-" ++ pad2 d.month ++ "-" ++ pad2 d.day

/-- The `isoformat` string of the date with ordinal `n`. -/
def isoOfOrdinal (n : Nat) : String := (fromOrdinal n).isoformat

/-! ### Parsing the start date

`datetime.strptime(args.start_date, "%Y-%m-%d")` matches the regular
expression built by `_strptime`: four digits for `%Y`, the alternatives
`1[0-2]|0[1-9]|[1-9]` for `%m` and `3[01]|[12]\d|0[1-9]|[1-9]` for `%d`
(two-digit forms first), literal dashes between them, the whole string
consumed, and then the `date` constructor validates the day against the
month length.  For this format the ordered-alternative parse below is
exact: whenever a two-digit directive form matches but the overall parse
later fails, the one-digit form fails as well, because the following
literal dash can never match a digit and shortening a directive only
leaves extra unconverted input. -/

/-- The `%Y` directive: exactly four digits. -/
def parseY : List Char → Option (Nat × List Char)
  | a :: b :: c :: d :: rest =>
    if isDig a && isDig b && isDig c && isDig d then
      some (1000 * digitVal a + 100 * digitVal b + 10 * digitVal c + digitVal d, rest)
    else none
  | _ => none

/-- The `%m` directive: `1[0-2]`, `0[1-9]`, `[1-9]`, in this order. -/
def parseM : List Char → Option (Nat × List Char)
  | '1' :: c :: rest =>
    if decide ('0' ≤ c) && decide (c ≤ '2') then some (10 + digitVal c, rest)
    else some (1, c :: rest)
  | '0' :: c :: rest =>
    if decide ('1' ≤ c) && decide (c ≤ '9') then some (digitVal c, rest) else none
  | c :: rest =>
    if decide ('1' ≤ c) && decide (c ≤ '9') then some (digitVal c, rest) else none
  | [] => none

/-- The `%d` directive: `3[01]`, `[12]\d`, `0[1-9]`, `[1-9]`, in order. -/
def parseD : List Char → Option (Nat × List Char)
  | '3' :: c :: rest =>
    if c = '0' || c = '1' then some (30 + digitVal c, rest) else some (3, c :: rest)
  | '1' :: c :: rest =>
    if isDig c then some (10 + digitVal c, rest) else some (1, c :: rest)
  | '2' :: c :: rest =>
    if isDig c then some (20 + digitVal c, rest) else some (2, c :: rest)
  | '0' :: c :: rest =>
    if decide ('1' ≤ c) && decide (c ≤ '9') then some (digitVal c, rest) else none
  | c :: rest =>
    if decide ('1' ≤ c) && decide (c ≤ '9') then some (digitVal c, rest) else none
  | [] => none

/-- The format `"%Y-%m-%d"` in full, with the unconverted-data check. -/
def parseYMD (cs : List Char) : Option (Nat × Nat × Nat) :=
  match parseY cs with
  | none => none
  | some (y, r1) =>
    match r1 with
    | '-' :: r2 =>
      match parseM r2 with
      | none => none
      | some (m, r3) =>
        match r3 with
        | '-' :: r4 =>
          match parseD r4 with
          | none => none
          | some (d, r5) => if r5 = [] then some (y, m, d) else none
        | _ => none
    | _ => none

/-- The `datetime.date` constructor check: year at least `MINYEAR = 1`
(a four-digit year is at most `MAXYEAR = 9999`), month in range, day at
least 1 and at most the length of the month. -/
def mkDate (y m d : Nat) : Option Date :=
  if 1 ≤ y ∧ 1 ≤ m ∧ m ≤ 12 ∧ 1 ≤ d ∧ d ≤ daysInMonth y m then some ⟨y, m, d⟩
  else none

/-- `datetime.strptime(args.start_date, "%Y-%m-%d").date()`, with `none`
for a raised `ValueError`. -/
def parseStartDate (s : String) : Option Date :=
  match parseYMD s.data with
  | some (y, m, d) => mkDate y m d
  | none => none

/-! ### Selectors, frames and the locator resolver -/

def DATE_INPUT_SELECTORS : List String :=
  ["input#asofDate",
   "input[id=\x27asofDate\x27 i]",
   "input[type=\x27text\x27][id*=\x27asof\x27 i]",
   "input[type=\x27text\x27][name*=\x27asof\x27 i]"]

def CONTENTEDITABLE_SELECTORS : List String :=
  ["div[contenteditable=\x27plaintext-only\x27]",
   "div[contenteditable=\x27true\x27]",
   "[contenteditable][role=\x27textbox\x27]"]

def SUBMIT_BUTTON_SELECTORS : List String := ["#customAsOfBal"]

def PRICE_CELL_SELECTORS : List String :=
  ["#caoBalDiv > table > tbody > tr > td.unite-table-cell.unite-table-cell-2.unite-table-column-unit"]

/-- Outcome of probing one selector in one frame, abstracting
`el = frame.query_selector(sel)` and `el.is_visible()`: the probe can
raise (`err`, swallowed by the surrounding `try`), find nothing
(`absent`), or find an element that is or is not visible. -/
inductive Probe where
  | err
  | absent
  | found (visible : Bool)
deriving DecidableEq

/-- The page as the oracle surface the program reads.  Frames are opaque
identities (naturals); `frames` is `page.frames` in discovery order,
which in Playwright contains the main frame as well.  `probe` abstracts
`query_selector` with a visibility check per frame and selector, and
`locCount` abstracts `locator(sel).first.count()` (`none` when the call
raises). -/
structure PageM where
  main : Nat
  frames : List Nat
  probe : Nat → String → Probe
  locCount : Nat → String → Option Nat

/-- The function `first_visible_in_frame`: the first selector of the
list whose probe finds a visible element; a raised probe is passed over
by the `except` clause exactly like a miss. -/
def first_visible_in_frame (probe : String → Probe) : List String → Option String
  | [] => none
  | sel :: rest =>
    match probe sel with
    | Probe.found true => some sel
    | _ => first_visible_in_frame probe rest

/-- The loop of `find_across_frames` over `page.frames`, skipping the
main frame (`if fr is page.main_frame: continue`). -/
def findInFrames (pg : PageM) (selectors : List String) : List Nat → Option (Nat × String)
  | [] => none
  | fr :: rest =>
    if fr = pg.main then findInFrames pg selectors rest
    else
      match first_visible_in_frame (pg.probe fr) selectors with
      | some sel => some (fr, sel)
      | none => findInFrames pg selectors rest

/-- The function `find_across_frames`: main frame first, then every
other frame in discovery order; `(None, None)` becomes `none`. -/
def find_across_frames (pg : PageM) (selectors : List String) : Option (Nat × String) :=
  match first_visible_in_frame (pg.probe pg.main) selectors with
  | some sel => some (pg.main, sel)
  | none => findInFrames pg selectors pg.frames

/-- Inside `locate_price_locator`: `loc = fr.locator(sel).first` is
always truthy, so the guard `if loc and loc.count() > 0` holds exactly
when `count()` returns a positive number; a raised `count()` is caught
and treated as a miss. -/
def locCountPos (pg : PageM) (fr : Nat) (sel : String) : Bool :=
  match pg.locCount fr sel with
  | some n => decide (0 < n)
  | none => false

/-- First selector of the list whose locator has a matching element in
the given frame (no visibility requirement). -/
def firstWithElement (pg : PageM) (fr : Nat) : List String → Option String
  | [] => none
  | sel :: rest =>
    if locCountPos pg fr sel then some sel else firstWithElement pg fr rest

/-- The fallback loop of `locate_price_locator` over `page.frames`
(which, unlike `find_across_frames`, does not skip the main frame). -/
def locateInFrames (pg : PageM) : List Nat → Option (Nat × String)
  | [] => none
  | fr :: rest =>
    match firstWithElement pg fr PRICE_CELL_SELECTORS with
    | some sel => some (fr, sel)
    | none => locateInFrames pg rest

/-- The function `locate_price_locator`: try `page.locator(sel)` (the
main frame) for each price-cell selector, then every frame; the returned
locator is identified by its (frame, selector) pair. -/
def locate_price_locator (pg : PageM) : Option (Nat × String) :=
  match firstWithElement pg pg.main PRICE_CELL_SELECTORS with
  | some sel => some (pg.main, sel)
  | none => locateInFrames pg pg.frames

/-- The probe order of `find_across_frames`: the main frame with the
selectors in priority order, then each non-main frame in discovery order
with the selectors in priority order. -/
def resolverOrder (pg : PageM) (selectors : List String) : List (Nat × String) :=
  selectors.map (fun s => (pg.main, s)) ++
    (pg.frames.filter (fun f => f ≠ pg.main)).flatMap
      (fun f => selectors.map (fun s => (f, s)))

/-- The probe order of `locate_price_locator`: the main frame, then
every frame of `page.frames` in discovery order (the main frame is
probed again there, with the same outcome). -/
def priceOrder (pg : PageM) : List (Nat × String) :=
  PRICE_CELL_SELECTORS.map (fun s => (pg.main, s)) ++
    pg.frames.flatMap (fun f => PRICE_CELL_SELECTORS.map (fun s => (f, s)))

/-- A (frame, selector) pair matches for `find_across_frames` when its
probe finds a currently visible element. -/
def visibleMatch (pg : PageM) (p : Nat × String) : Bool :=
  pg.probe p.1 p.2 == Probe.found true

/-- A (frame, selector) pair matches for `locate_price_locator` when at
least one element matches the selector, visible or not. -/
def existsMatch (pg : PageM) (p : Nat × String) : Bool := locCountPos pg p.1 p.2

/-! ### The date setter -/

/-- The contenteditable fallback block of `set_date_anywhere`.  The
oracle `interact fr sel target` is the outcome of the interaction
sequence (`query_selector`, `click`, select-all, `Backspace`, `type`):
`false` when any step raised, with the exception swallowed. -/
def tryContentEditable (pg : PageM) (interact : Nat → String → String → Bool)
    (target : String) : Bool :=
  match find_across_frames pg CONTENTEDITABLE_SELECTORS with
  | some (fr, sel) => interact fr sel target
  | none => false

/-- The function `set_date_anywhere`: prefer a date input element; when
none is found or the interaction with it raises, fall through to the
contenteditable candidates; report a single boolean. -/
def set_date_anywhere (pg : PageM) (interact : Nat → String → String → Bool)
    (target : String) : Bool :=
  match find_across_frames pg DATE_INPUT_SELECTORS with
  | some (fr, sel) => interact fr sel target || tryContentEditable pg interact target
  | none => tryContentEditable pg interact target

/-! ### The update waiter -/

/-- The exit test of the poll loop of `wait_for_price_update`:
`if prev_text:` is Python truthiness (`None` and the empty string are
falsy), then `txt and txt != prev_text`, or just `txt` when no previous
text. -/
def exitText : Option String → String → Bool
  | some p, txt => if p != "" then txt != "" && txt != p else txt != ""
  | none, txt => txt != ""

/-- The poll loop of `wait_for_price_update`.  Real time is abstracted
into a poll budget: the loop body runs once per remaining budget unit
(each iteration reads the text, remembers it in `last`, exits early on
the exit test, else sleeps and repeats); on exhaustion the result is
`(last or "").strip()`. -/
def waitLoop (polls : Nat → String) (prev : Option String) :
    Nat → Nat → Option String → String
  | 0, _, last => pyStrip (last.getD "")
  | fuel + 1, i, _ =>
    let txt := polls i
    if exitText prev txt then pyStrip txt
    else waitLoop polls prev fuel (i + 1) (some txt)

/-- The function `wait_for_price_update`: `polls i` is the text read by
`extract_price_text` at the i-th poll, `maxPolls` the number of polls
the deadline `MAX_WAIT_PRICE_MS` allows. -/
def wait_for_price_update (polls : Nat → String) (prev : Option String)
    (maxPolls : Nat) : String :=
  waitLoop polls prev maxPolls 0 none

/-! ### The day loop -/

/-- Outcome of one attempt of the per-day loop body (capture previous
text, set the date, press Enter, submit, pause, wait for the update):
either the text returned by `wait_for_price_update`, or the message of
the exception that aborted the attempt. -/
inductive AttemptResult where
  | ok (txt : String)
  | err (msg : String)

def PER_DAY_RETRIES : Nat := 2

/-- `POLITE_DELAY_BETWEEN_DAYS_SEC = 0.35`, in hundredths of a second. -/
def POLITE_DELAY_HUNDREDTHS : Nat := 35

/-- The backoff base `0.8` of `time.sleep(0.8 * attempt)`, in hundredths
of a second. -/
def BACKOFF_BASE_HUNDREDTHS : Nat := 80

/-- Observable side effects of the day loop other than its writes. -/
inductive Ev where
  | sleepHundredths (n : Nat)
  | scrollReset
deriving DecidableEq

/-- The best-effort page reset between attempts:

    try:
        page.evaluate("window.scrollTo(0, 0);")
    except Exception:
        pass

The reset is attempted whether or not the evaluation raises
(`raises`), and a raise changes nothing else. -/
def scrollResetEvs (raises : Bool) : List Ev :=
  match raises with
  | false => [Ev.scrollReset]
  | true => [Ev.scrollReset]

/-- `clean_price(new_text) if args.clean_price else new_text`. -/
def applyClean (flag : Bool) (t : String) : String :=
  if flag then clean_price t else t

/-- The diagnostic line `sys.stderr.write("[WARN] {date}: {error}\n")`
written when the retries of a day are exhausted. -/
def warnLine (d : Nat) (e : String) : String :=
  "[WARN] " ++ isoOfOrdinal d ++ ": " ++ e ++ "\n"

/-- What one day of the loop produces: the single CSV row written for
the day (the date cell carried as the day ordinal), the diagnostic
lines, and the sleep and scroll side effects. -/
structure DayOut where
  row : Nat × String
  warnings : List String
  events : List Ev
deriving DecidableEq

/-- The attempt loop `for attempt in range(1, PER_DAY_RETRIES + 2)` of
one day, unrolled for `PER_DAY_RETRIES = 2` into its three iterations:
a successful attempt writes the scraped row and breaks; a failed attempt
with `attempt <= PER_DAY_RETRIES` sleeps `0.8 * attempt` seconds, scrolls
best-effort and continues; the final failure writes the warning and an
empty-price row.  `att k` is the outcome of attempt `k`, `sr k` whether
the scroll reset after attempt `k` raises. -/
def processDay (att : Nat → AttemptResult) (flag : Bool) (sr : Nat → Bool)
    (d : Nat) : DayOut :=
  match att 1 with
  | AttemptResult.ok t =>
    ⟨(d, applyClean flag t), [], [Ev.sleepHundredths POLITE_DELAY_HUNDREDTHS]⟩
  | AttemptResult.err _ =>
    let evs1 := Ev.sleepHundredths (BACKOFF_BASE_HUNDREDTHS * 1) :: scrollResetEvs (sr 1)
    match att 2 with
    | AttemptResult.ok t =>
      ⟨(d, applyClean flag t), [], evs1 ++ [Ev.sleepHundredths POLITE_DELAY_HUNDREDTHS]⟩
    | AttemptResult.err _ =>
      let evs2 := evs1 ++ (Ev.sleepHundredths (BACKOFF_BASE_HUNDREDTHS * 2) :: scrollResetEvs (sr 2))
      match att 3 with
      | AttemptResult.ok t =>
        ⟨(d, applyClean flag t), [], evs2 ++ [Ev.sleepHundredths POLITE_DELAY_HUNDREDTHS]⟩
      | AttemptResult.err e =>
        ⟨(d, ""), [warnLine d e], evs2 ++ [Ev.sleepHundredths POLITE_DELAY_HUNDREDTHS]⟩

/-- What a whole run writes: the data rows of the output CSV in order
(date cell as day ordinal), the diagnostic stream lines, and the side
effects. -/
structure RunResult where
  rows : List (Nat × String)
  warnings : List String
  events : List Ev

/-- The day loop `while cur <= today_local`, with `cur` carried as the
day ordinal: `n` is the number of iterations left, which for the entry
call `n = today + 1 - cur` is exactly the iteration count of the while
loop (`n = 0` exactly when `cur > today`); `cur += timedelta(days=1)` is
`cur + 1`.  `att cur k` is the outcome of attempt `k` on day `cur` and
`sr cur k` the scroll-reset raise oracle. -/
def dayLoopN (att : Nat → Nat → AttemptResult) (flag : Bool)
    (sr : Nat → Nat → Bool) : Nat → Nat → RunResult
  | 0, _ => ⟨[], [], []⟩
  | n + 1, cur =>
    let d := processDay (att cur) flag (sr cur) cur
    let rest := dayLoopN att flag sr n (cur + 1)
    ⟨d.row :: rest.rows, d.warnings ++ rest.warnings, d.events ++ rest.events⟩

/-- The function `run(args)` up to its observable writes.  `todayO` is
the ordinal of `datetime.now(tz=tz.tzlocal()).date()`.  A `sys.exit(1)`
after an error print is `Except.error` with the printed message; the
oracles are consulted only on the success path, after both start-date
checks pass. -/
def runModel (startStr : String) (todayO : Nat) (att : Nat → Nat → AttemptResult)
    (flag : Bool) (sr : Nat → Nat → Bool) : Except String RunResult :=
  match parseStartDate startStr with
  | none => Except.error "Error: --start-date must be YYYY-MM-DD"
  | some start =>
    if todayO < start.toOrdinal then
      Except.error "Error: --start-date cannot be in the future."
    else
      Except.ok (dayLoopN att flag sr (todayO + 1 - start.toOrdinal) start.toOrdinal)

/-- The output CSV of a run: the header row written by
`writer.writerow(["date", "close"])` followed by the data rows, the date
cell rendered by `cur.isoformat()`. -/
def RunResult.csv (r : RunResult) : List (List String) :=
  ["date", "close"] :: r.rows.map (fun p => [isoOfOrdinal p.1, p.2])

/-! ### Facts about the price matcher -/

/-- The ten digit characters. -/
def digitChars : List Char := ['0', '1', '2', '3', '4', '5', '6', '7', '8', '9']

lemma digit_isDig {c : Char} (h : c ∈ digitChars) : isDig c = true := by
  fin_cases h <;> decide

lemma digit_not_space {c : Char} (h : c ∈ digitChars) : pyIsSpace c = false := by
  fin_cases h <;> decide

lemma digit_nbsp {c : Char} (h : c ∈ digitChars) : nbspToSpace c = c := by
  fin_cases h <;> decide

lemma digit_sym_facts {c : Char} (h : c ∈ digitChars) :
    c ≠ '-' ∧ c ≠ '$' ∧ c ≠ ',' ∧ c ≠ '.' := by
  fin_cases h <;> decide

lemma isDig_ne_dot {c : Char} (h : isDig c = true) : c ≠ '.' := by
  intro hc; subst hc; exact absurd h (by decide)

lemma isDig_ne_comma {c : Char} (h : isDig c = true) : c ≠ ',' := by
  intro hc; subst hc; exact absurd h (by decide)

lemma isDig_ne_minus {c : Char} (h : isDig c = true) : c ≠ '-' := by
  intro hc; subst hc; exact absurd h (by decide)

lemma isDig_dot : isDig '.' = false := by decide

lemma dotTwoDigits_cons_ne {c : Char} (h : ¬c = '.') (r : List Char) :
    dotTwoDigits (c :: r) = none := by
  simp [dotTwoDigits, h]

lemma dotTwoDigits_dot {d1 d2 : Char} (h1 : isDig d1 = true) (h2 : isDig d2 = true)
    (r : List Char) : dotTwoDigits ('.' :: d1 :: d2 :: r) = some (['.', d1, d2], r) := by
  simp [dotTwoDigits, h1, h2]

lemma commaGroupsThenDot_cons_ne {c : Char} (hc : ¬c = ',') (r : List Char) :
    commaGroupsThenDot (c :: r) = dotTwoDigits (c :: r) := by
  rcases r with _ | ⟨a, _ | ⟨b, _ | ⟨c2, r2⟩⟩⟩ <;> simp only [commaGroupsThenDot, if_neg hc]

lemma commaGroupsThenDot_digit {c : Char} (h : isDig c = true) (r : List Char) :
    commaGroupsThenDot (c :: r) = none := by
  rw [commaGroupsThenDot_cons_ne (isDig_ne_comma h), dotTwoDigits_cons_ne (isDig_ne_dot h)]

lemma commaGroupsThenDot_dot {d1 d2 : Char} (h1 : isDig d1 = true) (h2 : isDig d2 = true)
    (r : List Char) : commaGroupsThenDot ('.' :: d1 :: d2 :: r) = some (['.', d1, d2], r) := by
  rw [commaGroupsThenDot_cons_ne (by decide), dotTwoDigits_dot h1 h2]

lemma digitsStarThenDot_append {d1 d2 : Char} (h1 : isDig d1 = true) (h2 : isDig d2 = true)
    (r : List Char) : ∀ ds, (∀ c ∈ ds, isDig c = true) →
    digitsStarThenDot (ds ++ '.' :: d1 :: d2 :: r) = some (ds ++ ['.', d1, d2], r) := by
  intro ds
  induction ds with
  | nil =>
    intro _
    simp [digitsStarThenDot, isDig_dot, dotTwoDigits_dot h1 h2]
  | cons c cs ih =>
    intro hall
    have hc : isDig c = true := hall c (by simp)
    have ihr := ih (fun x hx => hall x (by simp [hx]))
    simp [digitsStarThenDot, hc, ihr]

lemma branchPlain_append {d1 d2 : Char} (h1 : isDig d1 = true) (h2 : isDig d2 = true)
    (r : List Char) (a : Char) (ds : List Char) (ha : isDig a = true)
    (hall : ∀ c ∈ ds, isDig c = true) :
    branchPlain (a :: ds ++ '.' :: d1 :: d2 :: r) = some (a :: ds ++ ['.', d1, d2], r) := by
  simp [branchPlain, ha, digitsStarThenDot_append h1 h2 r ds hall]

lemma groupMatch_clean {d1 d2 : Char} (h1 : isDig d1 = true) (h2 : isDig d2 = true)
    (r : List Char) : ∀ ds, ds ≠ [] → (∀ c ∈ ds, isDig c = true) →
    groupMatch (ds ++ '.' :: d1 :: d2 :: r) = some (ds ++ ['.', d1, d2], r) := by
  intro ds hne hall
  rcases ds with _ | ⟨a, _ | ⟨b, _ | ⟨c3, _ | ⟨d4, tl⟩⟩⟩⟩
  · exact absurd rfl hne
  · have ha : isDig a = true := hall a (by simp)
    simp [groupMatch, branchGrouped, prefixThenCommas, takeDigitsN, ha, isDig_dot,
      commaGroupsThenDot_dot h1 h2]
  · have ha : isDig a = true := hall a (by simp)
    have hb : isDig b = true := hall b (by simp)
    simp [groupMatch, branchGrouped, prefixThenCommas, takeDigitsN, ha, hb, isDig_dot,
      commaGroupsThenDot_dot h1 h2]
  · have ha : isDig a = true := hall a (by simp)
    have hb : isDig b = true := hall b (by simp)
    have hc3 : isDig c3 = true := hall c3 (by simp)
    simp [groupMatch, branchGrouped, prefixThenCommas, takeDigitsN, ha, hb, hc3, isDig_dot,
      commaGroupsThenDot_dot h1 h2]
  · have ha : isDig a = true := hall a (by simp)
    have hb : isDig b = true := hall b (by simp)
    have hc3 : isDig c3 = true := hall c3 (by simp)
    have hd4 : isDig d4 = true := hall d4 (by simp)
    have htl : ∀ c ∈ tl, isDig c = true := fun x hx => hall x (by simp [hx])
    have hplain := branchPlain_append h1 h2 r a (b :: c3 :: d4 :: tl) ha
      (by intro x hx; simp at hx; rcases hx with rfl | rfl | rfl | hx
          · exact hb
          · exact hc3
          · exact hd4
          · exact htl x hx)
    simp only [List.cons_append] at hplain
    simp [groupMatch, branchGrouped, prefixThenCommas, takeDigitsN, ha, hb, hc3, hd4,
      commaGroupsThenDot_digit hd4, commaGroupsThenDot_digit hc3, commaGroupsThenDot_digit hb,
      hplain]

lemma matchPriceAt_clean {d1 d2 : Char} (h1 : d1 ∈ digitChars) (h2 : d2 ∈ digitChars)
    (r : List Char) : ∀ ds, ds ≠ [] → (∀ c ∈ ds, c ∈ digitChars) →
    matchPriceAt (ds ++ '.' :: d1 :: d2 :: r) = some (ds ++ ['.', d1, d2], r) := by
  intro ds hne hall
  obtain ⟨a, ds', rfl⟩ := List.exists_cons_of_ne_nil hne
  have ha : a ∈ digitChars := hall a (by simp)
  have hgm := groupMatch_clean (digit_isDig h1) (digit_isDig h2) r (a :: ds') hne
    (fun x hx => digit_isDig (hall x hx))
  have hm : ¬(a = '-') := (digit_sym_facts ha).1
  have hd : ¬(a = '$') := (digit_sym_facts ha).2.1
  have hs : pyIsSpace a = false := digit_not_space ha
  simp only [List.cons_append] at hgm ⊢
  simp [matchPriceAt, optCharThen, spacesThen, hm, hd, hs, hgm]

lemma priceSearchL_clean {d1 d2 : Char} (h1 : d1 ∈ digitChars) (h2 : d2 ∈ digitChars)
    (r : List Char) (ds : List Char) (hne : ds ≠ []) (hall : ∀ c ∈ ds, c ∈ digitChars) :
    priceSearchL (ds ++ '.' :: d1 :: d2 :: r) = some (ds ++ ['.', d1, d2]) := by
  have hm := matchPriceAt_clean h1 h2 r ds hne hall
  obtain ⟨a, ds', rfl⟩ := List.exists_cons_of_ne_nil hne
  simp only [List.cons_append] at hm ⊢
  simp [priceSearchL, hm]

lemma map_nbsp_id : ∀ l : List Char, (∀ c ∈ l, nbspToSpace c = c) → l.map nbspToSpace = l := by
  intro l
  induction l with
  | nil => intro _; rfl
  | cons c cs ih =>
    intro h
    simp [h c (by simp), ih (fun x hx => h x (by simp [hx]))]

lemma pyStripL_clean {a z : Char} (ha : pyIsSpace a = false) (hz : pyIsSpace z = false)
    (xs : List Char) : pyStripL (a :: xs ++ [z]) = a :: xs ++ [z] := by
  unfold pyStripL
  have e1 : List.dropWhile pyIsSpace (a :: xs ++ [z]) = a :: xs ++ [z] := by
    simp [List.dropWhile_cons, ha]
  rw [e1]
  have e2 : (a :: xs ++ [z]).reverse = z :: (xs.reverse ++ [a]) := by simp
  rw [e2]
  have e3 : List.dropWhile pyIsSpace (z :: (xs.reverse ++ [a])) = z :: (xs.reverse ++ [a]) := by
    simp [List.dropWhile_cons, hz]
  rw [e3]
  simp

lemma filter_ne_comma_id : ∀ l : List Char, (∀ c ∈ l, ¬c = ',') →
    l.filter (fun c => c != ',') = l := by
  intro l h
  apply List.filter_eq_self.mpr
  intro c hc
  simpa using h c hc

/-! ### Character classes of a matched group

The captured group consists of digits, commas and one dot, so a minus
sign consumed by the leading `-?` of the pattern is never part of it. -/

lemma takeDigitsN_chars : ∀ n cs p r, takeDigitsN n cs = some (p, r) →
    ∀ c ∈ p, isDig c = true := by
  intro n
  induction n with
  | zero =>
    intro cs p r h c hc
    simp only [takeDigitsN, Option.some.injEq, Prod.mk.injEq] at h
    obtain ⟨h1, _⟩ := h
    subst h1
    simp at hc
  | succ n ih =>
    intro cs p r h c hc
    cases cs with
    | nil => simp [takeDigitsN] at h
    | cons d rest =>
      by_cases hd : isDig d = true
      · simp only [takeDigitsN, hd, if_true, Option.map_eq_some'] at h
        obtain ⟨⟨q1, q2⟩, hq, hqe⟩ := h
        simp only [Prod.mk.injEq] at hqe
        obtain ⟨hp, _⟩ := hqe
        subst hp
        rcases List.mem_cons.mp hc with rfl | hc'
        · exact hd
        · exact ih rest q1 q2 hq c hc'
      · simp [takeDigitsN, hd] at h

lemma dotTwoDigits_chars : ∀ cs g r, dotTwoDigits cs = some (g, r) →
    ∀ c ∈ g, c = '.' ∨ isDig c = true := by
  intro cs g r h c hc
  rcases cs with _ | ⟨x, _ | ⟨a, _ | ⟨b, r2⟩⟩⟩
  · simp [dotTwoDigits] at h
  · rw [show dotTwoDigits [x] = none from by simp [dotTwoDigits]] at h
    exact absurd h (by simp)
  · rw [show dotTwoDigits [x, a] = none from by simp [dotTwoDigits]] at h
    exact absurd h (by simp)
  · simp only [dotTwoDigits] at h
    split_ifs at h with hx hd
    · simp only [Option.some.injEq, Prod.mk.injEq] at h
      obtain ⟨hg, _⟩ := h
      subst hg
      simp only [Bool.and_eq_true] at hd
      simp only [List.mem_cons] at hc
      rcases hc with rfl | rfl | rfl | hfalse
      · exact Or.inl hx
      · exact Or.inr hd.1
      · exact Or.inr hd.2
      · simp at hfalse

lemma commaGroupsThenDot_chars (n : Nat) : ∀ cs g r, cs.length ≤ n →
    commaGroupsThenDot cs = some (g, r) →
    ∀ c ∈ g, c = ',' ∨ c = '.' ∨ isDig c = true := by
  induction n with
  | zero =>
    intro cs g r hl h c hc
    rcases cs with _ | ⟨x, rest⟩
    · simp [commaGroupsThenDot, dotTwoDigits] at h
    · simp at hl
  | succ n ih =>
    intro cs g r hl h c hc
    rcases cs with _ | ⟨x, rest⟩
    · simp [commaGroupsThenDot, dotTwoDigits] at h
    · by_cases hx : x = ','
      · subst hx
        rcases rest with _ | ⟨a, _ | ⟨b, _ | ⟨c2, r2⟩⟩⟩
        · rw [show commaGroupsThenDot [','] = dotTwoDigits [','] from by
              simp [commaGroupsThenDot]] at h
          rcases dotTwoDigits_chars _ _ _ h c hc with hh | hh
          · exact Or.inr (Or.inl hh)
          · exact Or.inr (Or.inr hh)
        · rw [show commaGroupsThenDot [',', a] = dotTwoDigits [',', a] from by
              simp [commaGroupsThenDot]] at h
          rcases dotTwoDigits_chars _ _ _ h c hc with hh | hh
          · exact Or.inr (Or.inl hh)
          · exact Or.inr (Or.inr hh)
        · rw [show commaGroupsThenDot [',', a, b] = dotTwoDigits [',', a, b] from by
              simp [commaGroupsThenDot]] at h
          rcases dotTwoDigits_chars _ _ _ h c hc with hh | hh
          · exact Or.inr (Or.inl hh)
          · exact Or.inr (Or.inr hh)
        · simp only [commaGroupsThenDot, if_pos rfl] at h
          by_cases hd : (isDig a && isDig b && isDig c2) = true
          · rw [if_pos hd] at h
            cases hrec : commaGroupsThenDot r2 with
            | some p =>
              rcases p with ⟨g2, r3⟩
              rw [hrec] at h
              injection h with h2
              rw [Prod.mk.injEq] at h2
              obtain ⟨hg, _⟩ := h2
              subst hg
              simp only [Bool.and_eq_true] at hd
              simp only [List.mem_cons] at hc
              rcases hc with rfl | rfl | rfl | rfl | hc'
              · exact Or.inl rfl
              · exact Or.inr (Or.inr hd.1.1)
              · exact Or.inr (Or.inr hd.1.2)
              · exact Or.inr (Or.inr hd.2)
              · exact ih r2 g2 r3 (by simp at hl; omega) hrec c hc'
            | none =>
              rw [hrec] at h
              dsimp only at h
              rw [dotTwoDigits_cons_ne (by decide)] at h
              exact absurd h (by simp)
          · rw [if_neg hd, dotTwoDigits_cons_ne (by decide)] at h
            exact absurd h (by simp)
      · rw [commaGroupsThenDot_cons_ne hx] at h
        rcases dotTwoDigits_chars _ _ _ h c hc with hh | hh
        · exact Or.inr (Or.inl hh)
        · exact Or.inr (Or.inr hh)

lemma prefixThenCommas_chars {n cs g r} (h : prefixThenCommas n cs = some (g, r)) :
    ∀ c ∈ g, c = ',' ∨ c = '.' ∨ isDig c = true := by
  intro c hc
  unfold prefixThenCommas at h
  cases htk : takeDigitsN n cs with
  | none => rw [htk] at h; exact absurd h (by simp)
  | some p =>
    rcases p with ⟨p1, r1⟩
    rw [htk] at h
    dsimp only at h
    cases hcg : commaGroupsThenDot r1 with
    | none => rw [hcg] at h; exact absurd h (by simp)
    | some q =>
      rcases q with ⟨g2, r2⟩
      rw [hcg] at h
      dsimp only at h
      simp only [Option.some.injEq, Prod.mk.injEq] at h
      obtain ⟨hg, _⟩ := h
      subst hg
      rcases List.mem_append.mp hc with hc' | hc'
      · exact Or.inr (Or.inr (takeDigitsN_chars n cs p1 r1 htk c hc'))
      · exact commaGroupsThenDot_chars r1.length r1 g2 r2 (le_refl _) hcg c hc'

lemma branchGrouped_chars {cs g r} (h : branchGrouped cs = some (g, r)) :
    ∀ c ∈ g, c = ',' ∨ c = '.' ∨ isDig c = true := by
  unfold branchGrouped at h
  cases h3 : prefixThenCommas 3 cs with
  | some p =>
    rw [h3] at h
    dsimp only at h
    injection h with h'
    subst h'
    exact prefixThenCommas_chars h3
  | none =>
    rw [h3] at h
    dsimp only at h
    cases h2 : prefixThenCommas 2 cs with
    | some p =>
      rw [h2] at h
      dsimp only at h
      injection h with h'
      subst h'
      exact prefixThenCommas_chars h2
    | none =>
      rw [h2] at h
      dsimp only at h
      exact prefixThenCommas_chars h

lemma digitsStarThenDot_chars : ∀ cs g r, digitsStarThenDot cs = some (g, r) →
    ∀ c ∈ g, c = '.' ∨ isDig c = true := by
  intro cs
  induction cs with
  | nil =>
    intro g r h
    simp [digitsStarThenDot, dotTwoDigits] at h
  | cons x rest ih =>
    intro g r h c hc
    simp only [digitsStarThenDot] at h
    by_cases hx : isDig x = true
    · rw [if_pos hx] at h
      cases hrec : digitsStarThenDot rest with
      | some p =>
        rcases p with ⟨g2, r2⟩
        rw [hrec] at h
        simp only [Option.some.injEq, Prod.mk.injEq] at h
        obtain ⟨hg, _⟩ := h
        subst hg
        rcases List.mem_cons.mp hc with rfl | hc'
        · exact Or.inr hx
        · exact ih g2 r2 hrec c hc'
      | none =>
        rw [hrec] at h
        exact dotTwoDigits_chars _ _ _ h c hc
    · rw [if_neg hx] at h
      exact dotTwoDigits_chars _ _ _ h c hc

lemma branchPlain_chars {cs g r} (h : branchPlain cs = some (g, r)) :
    ∀ c ∈ g, c = '.' ∨ isDig c = true := by
  intro c hc
  cases cs with
  | nil => simp [branchPlain] at h
  | cons x rest =>
    simp only [branchPlain] at h
    by_cases hx : isDig x = true
    · rw [if_pos hx] at h
      simp only [Option.map_eq_some'] at h
      obtain ⟨⟨g2, r2⟩, hq, hqe⟩ := h
      simp only [Prod.mk.injEq] at hqe
      obtain ⟨hg, _⟩ := hqe
      subst hg
      rcases List.mem_cons.mp hc with rfl | hc'
      · exact Or.inr hx
      · exact digitsStarThenDot_chars rest g2 r2 hq c hc'
    · rw [if_neg hx] at h
      exact absurd h (by simp)

lemma groupMatch_chars {cs g r} (h : groupMatch cs = some (g, r)) :
    ∀ c ∈ g, c = ',' ∨ c = '.' ∨ isDig c = true := by
  intro c hc
  unfold groupMatch at h
  cases hb : branchGrouped cs with
  | some p =>
    rw [hb] at h
    dsimp only at h
    injection h with h'
    subst h'
    exact branchGrouped_chars hb c hc
  | none =>
    rw [hb] at h
    dsimp only at h
    rcases branchPlain_chars h c hc with hh | hh
    · exact Or.inr (Or.inl hh)
    · exact Or.inr (Or.inr hh)

lemma optCharThen_some {ch : Char} {k : List Char → Option (List Char × List Char)}
    {cs : List Char} {g r : List Char} (h : optCharThen ch k cs = some (g, r)) :
    ∃ cs', k cs' = some (g, r) := by
  rcases cs with _ | ⟨c2, rest⟩
  · exact ⟨[], h⟩
  · simp only [optCharThen] at h
    by_cases hc : c2 = ch
    · rw [if_pos hc] at h
      cases hk : k rest with
      | some p =>
        rw [hk] at h
        dsimp only at h
        exact ⟨rest, hk.trans h⟩
      | none =>
        rw [hk] at h
        dsimp only at h
        exact ⟨c2 :: rest, h⟩
    · rw [if_neg hc] at h
      exact ⟨c2 :: rest, h⟩

lemma spacesThen_some {k : List Char → Option (List Char × List Char)} :
    ∀ {cs g r}, spacesThen k cs = some (g, r) → ∃ cs', k cs' = some (g, r) := by
  intro cs
  induction cs with
  | nil => intro g r h; exact ⟨[], h⟩
  | cons c rest ih =>
    intro g r h
    simp only [spacesThen] at h
    by_cases hc : pyIsSpace c = true
    · rw [if_pos hc] at h
      cases hk : spacesThen k rest with
      | some p =>
        rw [hk] at h
        dsimp only at h
        exact ih (hk.trans h)
      | none =>
        rw [hk] at h
        dsimp only at h
        exact ⟨c :: rest, h⟩
    · rw [if_neg hc] at h
      exact ⟨c :: rest, h⟩

lemma priceSearchL_no_minus : ∀ cs g, priceSearchL cs = some g → ∀ c ∈ g, ¬c = '-' := by
  intro cs
  induction cs with
  | nil =>
    intro g h
    rw [show priceSearchL [] = none from rfl] at h
    simp at h
  | cons x rest ih =>
    intro g h c hc
    simp only [priceSearchL] at h
    cases hm : matchPriceAt (x :: rest) with
    | some p =>
      rcases p with ⟨g2, r2⟩
      rw [hm] at h
      injection h with h'
      subst h'
      unfold matchPriceAt at hm
      obtain ⟨cs1, hk1⟩ := optCharThen_some hm
      obtain ⟨cs2, hk2⟩ := optCharThen_some hk1
      obtain ⟨cs3, hk3⟩ := spacesThen_some hk2
      rcases groupMatch_chars hk3 c hc with rfl | rfl | hdig
      · decide
      · decide
      · exact isDig_ne_minus hdig
    | none =>
      rw [hm] at h
      exact ih g h c hc

/-! ### The claims about the price normalizer -/

/-- C5: for every input string `clean_price` never raises (it is a total
function of the input): after normalizing non-breaking spaces to regular
spaces and stripping, if the text contains the decimal-money pattern the
result is the matched group with the thousands separators stripped
(`clean_price "$1,234.56" = "1234.56"`), and if no pattern is found the
result is the trimmed raw text unchanged (`clean_price "N/A" = "N/A"`). -/
theorem clean_price_contract :
    clean_price "$1,234.56" = "1234.56" ∧
    clean_price "N/A" = "N/A" ∧
    (∀ raw, priceSearch (pyStrip (replaceNbsp raw)) = none → clean_price raw = pyStrip raw) ∧
    (∀ raw g, priceSearch (pyStrip (replaceNbsp raw)) = some g →
      clean_price raw = String.mk (g.data.filter (fun c => c != ','))) := by
  refine ⟨by decide, by decide, ?_, ?_⟩
  · intro raw h
    by_cases hr : raw = ""
    · subst hr; decide
    · simp [clean_price, hr, h]
  · intro raw g h
    by_cases hr : raw = ""
    · subst hr
      rw [show priceSearch (pyStrip (replaceNbsp "")) = none from by decide] at h
      exact absurd h (by simp)
    · simp [clean_price, hr, h]

/-- Witness for C5 at the two concrete inputs of the claim. -/
theorem clean_price_contract_witness :
    priceSearch (pyStrip (replaceNbsp "N/A")) = none ∧
    clean_price "N/A" = pyStrip "N/A" ∧
    priceSearch (pyStrip (replaceNbsp "$1,234.56")) = some "1,234.56" ∧
    clean_price "$1,234.56" = String.mk (("1,234.56" : String).data.filter (fun c => c != ',')) :=
  ⟨by decide, clean_price_contract.2.2.1 "N/A" (by decide), by decide,
    clean_price_contract.2.2.2 "$1,234.56" "1,234.56" (by decide)⟩

/-- C6: `clean_price` discards a leading minus sign: the sign is consumed
by the `-?` of the pattern but excluded from the captured group, so
negative prices are reported as their unsigned magnitude
(`clean_price "-$1,234.56" = "1234.56"`, `clean_price "-12.34" = "12.34"`),
and in general a captured group never contains a minus sign. -/
theorem clean_price_drops_minus :
    clean_price "-$1,234.56" = "1234.56" ∧
    clean_price "-12.34" = "12.34" ∧
    (∀ s g, priceSearch s = some g → '-' ∉ g.data) := by
  refine ⟨by decide, by decide, ?_⟩
  intro s g h hmem
  simp only [priceSearch, Option.map_eq_some'] at h
  obtain ⟨gl, hgl, rfl⟩ := h
  exact priceSearchL_no_minus s.data gl hgl '-' hmem rfl

/-- Witness for C6: a concrete negative price whose group drops the sign. -/
theorem clean_price_drops_minus_witness :
    priceSearch "-12.34" = some "12.34" ∧ '-' ∉ ("12.34" : String).data :=
  ⟨by decide, clean_price_drops_minus.2.2 "-12.34" "12.34" (by decide)⟩

/-- C10: `clean_price` is the identity on already-clean decimal strings
(digits with exactly two decimal places and no separators, such as
`"12.34"`), hence idempotent on its own output for such strings. -/
theorem clean_price_idempotent_on_clean :
    clean_price "12.34" = "12.34" ∧
    (∀ ds d1 d2, ds ≠ [] → (∀ c ∈ ds, c ∈ digitChars) → d1 ∈ digitChars → d2 ∈ digitChars →
      clean_price (String.mk (ds ++ '.' :: d1 :: d2 :: [])) =
        String.mk (ds ++ '.' :: d1 :: d2 :: [])) ∧
    (∀ ds d1 d2, ds ≠ [] → (∀ c ∈ ds, c ∈ digitChars) → d1 ∈ digitChars → d2 ∈ digitChars →
      clean_price (clean_price (String.mk (ds ++ '.' :: d1 :: d2 :: []))) =
        clean_price (String.mk (ds ++ '.' :: d1 :: d2 :: []))) := by
  have main : ∀ ds d1 d2, ds ≠ [] → (∀ c ∈ ds, c ∈ digitChars) → d1 ∈ digitChars →
      d2 ∈ digitChars →
      clean_price (String.mk (ds ++ '.' :: d1 :: d2 :: [])) =
        String.mk (ds ++ '.' :: d1 :: d2 :: []) := by
    intro ds d1 d2 hne hall h1 h2
    have hsearch := priceSearchL_clean h1 h2 [] ds hne hall
    have hL : ∀ c ∈ ds ++ '.' :: d1 :: d2 :: [], c = '.' ∨ c ∈ digitChars := by
      intro c hc
      rcases List.mem_append.mp hc with hc' | hc'
      · exact Or.inr (hall c hc')
      · simp only [List.mem_cons] at hc'
        rcases hc' with rfl | rfl | rfl | hfalse
        · exact Or.inl rfl
        · exact Or.inr h1
        · exact Or.inr h2
        · simp at hfalse
    have hnbsp : (ds ++ '.' :: d1 :: d2 :: []).map nbspToSpace = ds ++ '.' :: d1 :: d2 :: [] := by
      apply map_nbsp_id
      intro c hc
      rcases hL c hc with rfl | hd
      · decide
      · exact digit_nbsp hd
    obtain ⟨a, ds', rfl⟩ := List.exists_cons_of_ne_nil hne
    have ha := hall a (by simp)
    have hshape : a :: ds' ++ '.' :: d1 :: d2 :: [] = a :: (ds' ++ ['.', d1]) ++ [d2] := by
      simp
    have hstrip : pyStripL (a :: ds' ++ '.' :: d1 :: d2 :: []) =
        a :: ds' ++ '.' :: d1 :: d2 :: [] := by
      rw [hshape]
      exact pyStripL_clean (digit_not_space ha) (digit_not_space h2) (ds' ++ ['.', d1])
    have hne' : ¬(String.mk (a :: ds' ++ '.' :: d1 :: d2 :: []) = "") := by
      intro hstr
      have hdata : a :: ds' ++ '.' :: d1 :: d2 :: [] = ([] : List Char) :=
        congrArg String.data hstr
      simp at hdata
    unfold clean_price
    rw [if_neg hne']
    have e1 : replaceNbsp (String.mk (a :: ds' ++ '.' :: d1 :: d2 :: [])) =
        String.mk (a :: ds' ++ '.' :: d1 :: d2 :: []) := by
      unfold replaceNbsp
      exact congrArg String.mk hnbsp
    rw [e1]
    have e2 : pyStrip (String.mk (a :: ds' ++ '.' :: d1 :: d2 :: [])) =
        String.mk (a :: ds' ++ '.' :: d1 :: d2 :: []) := by
      unfold pyStrip
      exact congrArg String.mk hstrip
    rw [e2]
    have e3 : priceSearch (String.mk (a :: ds' ++ '.' :: d1 :: d2 :: [])) =
        some (String.mk (a :: ds' ++ '.' :: d1 :: d2 :: [])) := by
      unfold priceSearch
      rw [show (String.mk (a :: ds' ++ '.' :: d1 :: d2 :: [])).data
            = a :: ds' ++ '.' :: d1 :: d2 :: [] from rfl]
      rw [hsearch]
      simp
    rw [e3]
    dsimp only
    have e4 : (String.mk (a :: ds' ++ '.' :: d1 :: d2 :: [])).data.filter
        (fun c => c != ',') = a :: ds' ++ '.' :: d1 :: d2 :: [] := by
      apply filter_ne_comma_id
      intro c hc
      rcases hL c hc with rfl | hd
      · decide
      · exact (digit_sym_facts hd).2.2.1
    rw [e4]
  exact ⟨by decide, main, fun ds d1 d2 hne hall h1 h2 => by
    simp only [main ds d1 d2 hne hall h1 h2]⟩

/-- Witness for C10 at `ds = ['1','2']`, decimals `'3'`, `'4'`. -/
theorem clean_price_idempotent_on_clean_witness :
    (['1', '2'] : List Char) ≠ [] ∧
    clean_price (String.mk (['1', '2'] ++ '.' :: '3' :: '4' :: [])) =
      String.mk (['1', '2'] ++ '.' :: '3' :: '4' :: []) :=
  ⟨by decide, clean_price_idempotent_on_clean.2.1 ['1', '2'] '3' '4' (by decide) (by decide)
    (by decide) (by decide)⟩

/-! ### The claim about the update waiter -/

lemma waitLoop_exit (polls : Nat → String) (prev : Option String) :
    ∀ fuel i last k, k < fuel → exitText prev (polls (i + k)) = true →
    (∀ j, j < k → exitText prev (polls (i + j)) = false) →
    waitLoop polls prev fuel i last = pyStrip (polls (i + k)) := by
  intro fuel
  induction fuel with
  | zero => intro i last k hk _ _; omega
  | succ fuel ih =>
    intro i last k hk hexit hmin
    by_cases h0 : exitText prev (polls i) = true
    · have hk0 : k = 0 := by
        by_contra hne
        have hm := hmin 0 (by omega)
        rw [Nat.add_zero] at hm
        rw [hm] at h0
        exact Bool.noConfusion h0
      subst hk0
      simp only [waitLoop, h0, if_true, Nat.add_zero]
    · have h0f : exitText prev (polls i) = false := by simpa using h0
      have hkpos : 0 < k := by
        rcases Nat.eq_zero_or_pos k with rfl | hp
        · rw [Nat.add_zero] at hexit
          rw [hexit] at h0f
          exact Bool.noConfusion h0f
        · exact hp
      simp only [waitLoop, h0f, Bool.false_eq_true, if_false]
      have := ih (i + 1) (some (polls i)) (k - 1) (by omega)
        (by rw [show i + 1 + (k - 1) = i + k from by omega]; exact hexit)
        (fun j hj => by
          have := hmin (j + 1) (by omega)
          rwa [show i + (j + 1) = i + 1 + j from by omega] at this)
      rwa [show i + 1 + (k - 1) = i + k from by omega] at this

lemma waitLoop_timeout (polls : Nat → String) (prev : Option String) :
    ∀ fuel i last, 0 < fuel → (∀ j, j < fuel → exitText prev (polls (i + j)) = false) →
    waitLoop polls prev fuel i last = pyStrip (polls (i + fuel - 1)) := by
  intro fuel
  induction fuel with
  | zero => intro i last h _; omega
  | succ fuel ih =>
    intro i last _ hall
    have h0 : exitText prev (polls i) = false := by
      have := hall 0 (by omega)
      rwa [Nat.add_zero] at this
    simp only [waitLoop, h0, Bool.false_eq_true, if_false]
    rcases Nat.eq_zero_or_pos fuel with rfl | hpos
    · show pyStrip ((some (polls i)).getD "") = pyStrip (polls (i + 1 - 1))
      simp
    · rw [ih (i + 1) (some (polls i)) hpos (fun j hj => by
        have := hall (j + 1) (by omega)
        rwa [show i + (j + 1) = i + 1 + j from by omega] at this)]
      rw [show i + 1 + fuel - 1 = i + (fuel + 1) - 1 from by omega]

/-- C4: the update waiter polls the price text at a fixed interval and
returns, stripped, the first polled text passing the exit test of the
loop (text non-empty and, when a non-empty previous text was supplied,
different from it; non-empty alone otherwise); when the poll budget
allowed by the maximum wait elapses first, it returns the last observed
text, which may be empty, and with no budget at all it returns the empty
string.  An empty result therefore does not reveal whether the waiter
timed out or observed an empty value. -/
theorem wait_for_price_update_spec :
    (∀ polls prev n k, k < n → exitText prev (polls k) = true →
      (∀ j, j < k → exitText prev (polls j) = false) →
      wait_for_price_update polls prev n = pyStrip (polls k)) ∧
    (∀ polls prev n, 0 < n → (∀ j, j < n → exitText prev (polls j) = false) →
      wait_for_price_update polls prev n = pyStrip (polls (n - 1))) ∧
    (∀ polls prev, wait_for_price_update polls prev 0 = "") := by
  refine ⟨?_, ?_, ?_⟩
  · intro polls prev n k hk hexit hmin
    have := waitLoop_exit polls prev n 0 none k hk (by simpa using hexit)
      (fun j hj => by simpa using hmin j hj)
    simpa [wait_for_price_update] using this
  · intro polls prev n hpos hall
    have := waitLoop_timeout polls prev n 0 none hpos (fun j hj => by simpa using hall j hj)
    simpa [wait_for_price_update] using this
  · intro polls prev
    rfl

/-- Witness for C4: with no previous text and polls "", "5.00", ..., the
waiter returns the stripped second poll. -/
theorem wait_for_price_update_spec_witness :
    (1 : Nat) < 3 ∧
    exitText none ((fun k => if k = 1 then "5.00" else "") 1) = true ∧
    wait_for_price_update (fun k => if k = 1 then "5.00" else "") none 3 =
      pyStrip ((fun k => if k = 1 then "5.00" else "") 1) :=
  ⟨by decide, by decide,
    wait_for_price_update_spec.1 (fun k => if k = 1 then "5.00" else "") none 3 1 (by decide)
      (by decide)
      (fun j hj => by
        have hj0 : j = 0 := by omega
        subst hj0
        decide)⟩

/-! ### The claim about the date setter -/

/-- C8: `set_date_anywhere` reports a single boolean.  It is true exactly
when the target date was typed into a located field: either the
input-style candidate resolves and the interaction with it succeeds, or,
the input stage having found nothing or its interaction having raised,
the editable-region candidate resolves and the interaction with it
succeeds.  It is false exactly otherwise: neither candidate was found or
every interaction raised, the underlying error being suppressed into the
boolean; the typed input element is tried first, the editable region
second. -/
theorem set_date_anywhere_boolean : ∀ pg interact target,
    set_date_anywhere pg interact target = true ↔
      ((∃ fr sel, find_across_frames pg DATE_INPUT_SELECTORS = some (fr, sel) ∧
          interact fr sel target = true) ∨
        ((∀ fr sel, find_across_frames pg DATE_INPUT_SELECTORS = some (fr, sel) →
            interact fr sel target = false) ∧
          (∃ fr sel, find_across_frames pg CONTENTEDITABLE_SELECTORS = some (fr, sel) ∧
            interact fr sel target = true))) := by
  intro pg interact target
  unfold set_date_anywhere tryContentEditable
  cases hin : find_across_frames pg DATE_INPUT_SELECTORS with
  | none =>
    cases hce : find_across_frames pg CONTENTEDITABLE_SELECTORS with
    | none => simp
    | some p =>
      rcases p with ⟨f, s⟩
      simp
      constructor
      · intro h
        exact ⟨f, s, ⟨rfl, rfl⟩, h⟩
      · rintro ⟨fr, sel, ⟨rfl, rfl⟩, h⟩
        exact h
  | some p =>
    rcases p with ⟨f, s⟩
    cases hi : interact f s target with
    | true =>
      simp [hi]
      exact ⟨f, s, ⟨rfl, rfl⟩, hi⟩
    | false =>
      cases hce : find_across_frames pg CONTENTEDITABLE_SELECTORS with
      | none => simp [hi]
      | some q =>
        rcases q with ⟨f2, s2⟩
        simp [hi]
        constructor
        · intro h
          exact Or.inr ⟨f2, s2, ⟨rfl, rfl⟩, h⟩
        · rintro (⟨fr, sel, ⟨rfl, rfl⟩, hfalse⟩ | ⟨fr, sel, ⟨rfl, rfl⟩, h⟩)
          · rw [hi] at hfalse
            exact Bool.noConfusion hfalse
          · exact h

/-- Witness for C8: a page whose main frame has a visible date input and
an interaction oracle that succeeds. -/
theorem set_date_anywhere_boolean_witness :
    set_date_anywhere
      ⟨0, [], fun f s => if f = 0 && s == "input#asofDate" then Probe.found true
              else Probe.absent,
        fun _ _ => none⟩
      (fun _ _ _ => true) "01/05/2024" = true :=
  (set_date_anywhere_boolean
    ⟨0, [], fun f s => if f = 0 && s == "input#asofDate" then Probe.found true
            else Probe.absent,
      fun _ _ => none⟩
    (fun _ _ _ => true) "01/05/2024").mpr
    (Or.inl ⟨0, "input#asofDate", by decide, rfl⟩)

/-! ### The claim about start-date validation -/

/-- C9: a start date that does not parse as a YYYY-MM-DD calendar date,
or parses to a date later than the current local date, makes the run
print the corresponding error to the diagnostic stream and exit non-zero
before any browser session is started (the error is the same for every
browser oracle); a valid start date not in the future passes both checks
and the run proceeds. -/
theorem start_date_validation :
    (∀ s t att flag sr, parseStartDate s = none →
      runModel s t att flag sr = Except.error "Error: --start-date must be YYYY-MM-DD") ∧
    (∀ s t att flag sr d, parseStartDate s = some d → t < d.toOrdinal →
      runModel s t att flag sr = Except.error "Error: --start-date cannot be in the future.") ∧
    (∀ s t att flag sr d, parseStartDate s = some d → d.toOrdinal ≤ t →
      ∃ out, runModel s t att flag sr = Except.ok out) := by
  refine ⟨?_, ?_, ?_⟩
  · intro s t att flag sr h
    simp [runModel, h]
  · intro s t att flag sr d h hf
    simp [runModel, h, hf]
  · intro s t att flag sr d h hle
    refine ⟨dayLoopN att flag sr (t + 1 - d.toOrdinal) d.toOrdinal, ?_⟩
    simp [runModel, h, Nat.not_lt.mpr hle]

/-- Witness for C9: a malformed date, a future date (today being ordinal
738890 = 2024-01-05) and a valid past date. -/
theorem start_date_validation_witness :
    parseStartDate "2025-13-40" = none ∧
    runModel "2025-13-40" 738890 (fun _ _ => AttemptResult.err "e") false (fun _ _ => false) =
      Except.error "Error: --start-date must be YYYY-MM-DD" ∧
    parseStartDate "2024-01-06" = some (Date.mk 2024 1 6) ∧
    738890 < (Date.mk 2024 1 6).toOrdinal ∧
    runModel "2024-01-06" 738890 (fun _ _ => AttemptResult.err "e") false (fun _ _ => false) =
      Except.error "Error: --start-date cannot be in the future." ∧
    (∃ out, runModel "2024-01-04" 738890 (fun _ _ => AttemptResult.err "e") false
      (fun _ _ => false) = Except.ok out) :=
  ⟨by decide, start_date_validation.1 _ _ _ _ _ (by decide), by decide, by decide,
    start_date_validation.2.1 _ _ _ _ _ (Date.mk 2024 1 6) (by decide) (by decide),
    start_date_validation.2.2 _ _ _ _ _ (Date.mk 2024 1 4) (by decide) (by decide)⟩

/-! ### The claim about the locator resolver -/

lemma first_visible_eq_find (probe : String → Probe) :
    ∀ sels, first_visible_in_frame probe sels =
      sels.find? (fun s => probe s == Probe.found true) := by
  intro sels
  induction sels with
  | nil => rfl
  | cons sel rest ih =>
    cases hp : probe sel with
    | err =>
      rw [List.find?_cons_of_neg _ (by simp [hp])]
      rw [show first_visible_in_frame probe (sel :: rest) = first_visible_in_frame probe rest
        from by simp [first_visible_in_frame, hp]]
      exact ih
    | absent =>
      rw [List.find?_cons_of_neg _ (by simp [hp])]
      rw [show first_visible_in_frame probe (sel :: rest) = first_visible_in_frame probe rest
        from by simp [first_visible_in_frame, hp]]
      exact ih
    | found v =>
      cases v
      · rw [List.find?_cons_of_neg _ (by simp [hp])]
        rw [show first_visible_in_frame probe (sel :: rest) = first_visible_in_frame probe rest
          from by simp [first_visible_in_frame, hp]]
        exact ih
      · rw [List.find?_cons_of_pos _ (by simp [hp])]
        simp [first_visible_in_frame, hp]

lemma find?_pair_map {α β : Type} (P : α × β → Bool) (f : α) :
    ∀ l : List β, ((l.map (fun s => (f, s))).find? P) =
      (l.find? (fun s => P (f, s))).map (fun s => (f, s)) := by
  intro l
  induction l with
  | nil => rfl
  | cons x rest ih =>
    cases hq : P (f, x) with
    | true =>
      rw [List.map_cons, List.find?_cons_of_pos _ hq,
        @List.find?_cons_of_pos _ (fun s => P (f, s)) x rest hq]
      rfl
    | false =>
      rw [List.map_cons, List.find?_cons_of_neg _ (by simp [hq]),
        List.find?_cons_of_neg _ (by simp [hq]), ih]

lemma findInFrames_eq (pg : PageM) (sels : List String) :
    ∀ frames : List Nat, findInFrames pg sels frames =
      ((frames.filter (fun f => f ≠ pg.main)).flatMap
        (fun f => sels.map (fun s => (f, s)))).find? (visibleMatch pg) := by
  intro frames
  induction frames with
  | nil => rfl
  | cons fr rest ih =>
    by_cases hfr : fr = pg.main
    · subst hfr
      simp only [findInFrames, if_pos rfl]
      rw [ih]
      simp [List.filter_cons]
    · simp only [findInFrames, if_neg hfr]
      rw [List.filter_cons_of_pos (by simp [hfr]), List.flatMap_cons, List.find?_append,
        find?_pair_map (visibleMatch pg) fr sels]
      simp only [visibleMatch]
      rw [← first_visible_eq_find (pg.probe fr) sels]
      cases hfv : first_visible_in_frame (pg.probe fr) sels with
      | some sel => simp [Option.or]
      | none =>
        rw [ih]
        simp [Option.or, visibleMatch]

lemma firstWithElement_eq_find (pg : PageM) (fr : Nat) :
    ∀ sels, firstWithElement pg fr sels = sels.find? (fun s => locCountPos pg fr s) := by
  intro sels
  induction sels with
  | nil => rfl
  | cons sel rest ih =>
    cases hq : locCountPos pg fr sel with
    | true =>
      rw [List.find?_cons_of_pos _ hq]
      simp [firstWithElement, hq]
    | false =>
      rw [List.find?_cons_of_neg _ (by simp [hq])]
      rw [show firstWithElement pg fr (sel :: rest) = firstWithElement pg fr rest
        from by simp [firstWithElement, hq]]
      exact ih

lemma locateInFrames_eq (pg : PageM) :
    ∀ frames : List Nat, locateInFrames pg frames =
      (frames.flatMap (fun f => PRICE_CELL_SELECTORS.map (fun s => (f, s)))).find?
        (existsMatch pg) := by
  intro frames
  induction frames with
  | nil => rfl
  | cons fr rest ih =>
    rw [List.flatMap_cons, List.find?_append, find?_pair_map (existsMatch pg) fr]
    simp only [existsMatch]
    rw [← firstWithElement_eq_find pg fr]
    cases hfv : firstWithElement pg fr PRICE_CELL_SELECTORS with
    | some sel => simp [locateInFrames, hfv, Option.or]
    | none =>
      rw [show locateInFrames pg (fr :: rest) = locateInFrames pg rest
        from by simp [locateInFrames, hfv]]
      rw [ih]
      simp [Option.or, existsMatch]

/-- C3 (amended): the resolver searches the main scope first with the
selectors in priority order, then the remaining scopes in discovery
order with the selectors in priority order within each, treating a
raised probe as a non-match for that probe only and returning the
not-found sentinel instead of raising when nothing matches.  For the
date-input, editable-region and submit roles (`find_across_frames`) a
pair matches when an element exists and is currently visible; for the
price-cell role (`locate_price_locator`) a pair matches as soon as an
element exists (`count() > 0`), visible or not, and its fallback
re-probes the main frame within the frame list. -/
theorem locator_resolution_order :
    (∀ pg sels,
      find_across_frames pg sels = (resolverOrder pg sels).find? (visibleMatch pg)) ∧
    (∀ pg, locate_price_locator pg = (priceOrder pg).find? (existsMatch pg)) := by
  constructor
  · intro pg sels
    unfold find_across_frames resolverOrder
    rw [List.find?_append, find?_pair_map (visibleMatch pg) pg.main]
    simp only [visibleMatch]
    rw [← first_visible_eq_find (pg.probe pg.main) sels]
    cases hfv : first_visible_in_frame (pg.probe pg.main) sels with
    | some sel => simp [Option.or]
    | none =>
      rw [findInFrames_eq]
      simp [Option.or, visibleMatch]
  · intro pg
    unfold locate_price_locator priceOrder
    rw [List.find?_append, find?_pair_map (existsMatch pg) pg.main]
    simp only [existsMatch]
    rw [← firstWithElement_eq_find pg pg.main]
    cases hfv : firstWithElement pg pg.main PRICE_CELL_SELECTORS with
    | some sel => simp [Option.or]
    | none =>
      rw [locateInFrames_eq]
      simp [Option.or, existsMatch]

/-- Counterexample to C3 as stated: a page whose only frame holds a
price cell that exists (`count() = 1`) but is not currently visible.
The claim requires resolution to return a pair only when a matching
element exists and is currently visible, hence the not-found sentinel
here, where no visible element matches anywhere (second conjunct); the
price-cell resolver nevertheless returns the pair, because it checks
`count() > 0` and never visibility. -/
theorem locate_price_ignores_visibility :
    locate_price_locator ⟨0, [0], fun _ _ => Probe.found false, fun _ _ => some 1⟩ =
      some (0, "#caoBalDiv > table > tbody > tr > td.unite-table-cell.unite-table-cell-2.unite-table-column-unit") ∧
    first_visible_in_frame
      ((⟨0, [0], fun _ _ => Probe.found false, fun _ _ => some 1⟩ : PageM).probe 0)
      PRICE_CELL_SELECTORS = none :=
  ⟨rfl, rfl⟩

/-! ### The claims about the day loop -/

lemma scrollResetEvs_eq (b : Bool) : scrollResetEvs b = [Ev.scrollReset] := by
  cases b <;> rfl

lemma processDay_row_fst (att : Nat → AttemptResult) (flag : Bool) (sr : Nat → Bool)
    (d : Nat) : (processDay att flag sr d).row.1 = d := by
  unfold processDay
  cases att 1 with
  | ok t => rfl
  | err e =>
    cases att 2 with
    | ok t => rfl
    | err e2 =>
      cases att 3 with
      | ok t => rfl
      | err e3 => rfl

lemma processDay_sr_indep (att : Nat → AttemptResult) (flag : Bool) (d : Nat)
    (sr sr' : Nat → Bool) : processDay att flag sr d = processDay att flag sr' d := by
  unfold processDay
  cases att 1 <;> cases att 2 <;> cases att 3 <;> simp [scrollResetEvs_eq]

lemma dayLoopN_rows_fst (att : Nat → Nat → AttemptResult) (flag : Bool)
    (sr : Nat → Nat → Bool) : ∀ n cur,
    ((dayLoopN att flag sr n cur).rows).map Prod.fst =
      (List.range n).map (fun i => cur + i) := by
  intro n
  induction n with
  | zero => intro cur; rfl
  | succ n ih =>
    intro cur
    simp only [dayLoopN]
    rw [List.map_cons, processDay_row_fst, ih (cur + 1), List.range_succ_eq_map]
    rw [List.map_cons, List.map_map]
    congr 1
    simp
    intro a _
    omega

lemma dayLoopN_filter (att : Nat → Nat → AttemptResult) (flag : Bool)
    (sr : Nat → Nat → Bool) (dd : Nat) : ∀ n cur,
    ((dayLoopN att flag sr n cur).rows).filter (fun r => r.1 == dd) =
      (if cur ≤ dd ∧ dd < cur + n then [(processDay (att dd) flag (sr dd) dd).row]
        else []) := by
  intro n
  induction n with
  | zero =>
    intro cur
    rw [if_neg (by omega)]
    rfl
  | succ n ih =>
    intro cur
    simp only [dayLoopN]
    by_cases hd : cur = dd
    · subst hd
      rw [List.filter_cons_of_pos (by simp [processDay_row_fst]), ih (cur + 1),
        if_neg (by omega), if_pos (by omega)]
    · rw [List.filter_cons_of_neg (by simp [processDay_row_fst, hd]), ih (cur + 1)]
      by_cases hin : cur + 1 ≤ dd ∧ dd < cur + 1 + n
      · rw [if_pos hin, if_pos (by omega)]
      · rw [if_neg hin, if_neg (by omega)]

lemma dayLoopN_warn_mem (att : Nat → Nat → AttemptResult) (flag : Bool)
    (sr : Nat → Nat → Bool) (dd : Nat) (w : String) : ∀ n cur, cur ≤ dd → dd < cur + n →
    w ∈ (processDay (att dd) flag (sr dd) dd).warnings →
    w ∈ (dayLoopN att flag sr n cur).warnings := by
  intro n
  induction n with
  | zero => intro cur h1 h2 _; omega
  | succ n ih =>
    intro cur h1 h2 hw
    simp only [dayLoopN]
    rw [List.mem_append]
    by_cases hd : cur = dd
    · subst hd
      exact Or.inl hw
    · exact Or.inr (ih (cur + 1) (by omega) (by omega) hw)

lemma dayLoopN_sr_indep (att : Nat → Nat → AttemptResult) (flag : Bool)
    (sr sr' : Nat → Nat → Bool) : ∀ n cur,
    dayLoopN att flag sr n cur = dayLoopN att flag sr' n cur := by
  intro n
  induction n with
  | zero => intro cur; rfl
  | succ n ih =>
    intro cur
    simp only [dayLoopN]
    rw [processDay_sr_indep (att cur) flag cur (sr cur) (sr' cur), ih (cur + 1)]

lemma runModel_sr_indep (s : String) (t : Nat) (att : Nat → Nat → AttemptResult)
    (flag : Bool) (sr sr' : Nat → Nat → Bool) :
    runModel s t att flag sr = runModel s t att flag sr' := by
  unfold runModel
  cases parseStartDate s with
  | none => rfl
  | some d =>
    by_cases h : t < d.toOrdinal
    · simp [h]
    · simp [h, dayLoopN_sr_indep att flag sr sr']

/-- C1: for every run whose start date parses and is not later than the
current local date, the output CSV is the header row `date,close`
followed by exactly one data row per calendar day (carried as its day
ordinal) from the start date through today inclusive, in strictly
ascending order with no duplicate or missing day, whatever the attempt
outcomes of the individual days are. -/
theorem run_one_row_per_day : ∀ s t att flag sr d,
    parseStartDate s = some d → d.toOrdinal ≤ t →
    ∃ out, runModel s t att flag sr = Except.ok out ∧
      out.rows.map Prod.fst =
        (List.range (t + 1 - d.toOrdinal)).map (fun i => d.toOrdinal + i) ∧
      out.csv = ["date", "close"] :: out.rows.map (fun p => [isoOfOrdinal p.1, p.2]) := by
  intro s t att flag sr d hp hle
  refine ⟨dayLoopN att flag sr (t + 1 - d.toOrdinal) d.toOrdinal, ?_, ?_, rfl⟩
  · simp [runModel, hp, Nat.not_lt.mpr hle]
  · exact dayLoopN_rows_fst att flag sr (t + 1 - d.toOrdinal) d.toOrdinal

/-- Witness for C1: a two-day run (2024-01-04 through ordinal 738890,
which is 2024-01-05) in which every attempt fails. -/
theorem run_one_row_per_day_witness :
    parseStartDate "2024-01-04" = some (Date.mk 2024 1 4) ∧
    (Date.mk 2024 1 4).toOrdinal ≤ 738890 ∧
    (∃ out, runModel "2024-01-04" 738890 (fun _ _ => AttemptResult.err "e") false
        (fun _ _ => false) = Except.ok out ∧
      out.rows.map Prod.fst =
        (List.range (738890 + 1 - (Date.mk 2024 1 4).toOrdinal)).map
          (fun i => (Date.mk 2024 1 4).toOrdinal + i) ∧
      out.csv = ["date", "close"] :: out.rows.map (fun p => [isoOfOrdinal p.1, p.2])) :=
  ⟨by decide, by decide,
    run_one_row_per_day "2024-01-04" 738890 (fun _ _ => AttemptResult.err "e") false
      (fun _ _ => false) (Date.mk 2024 1 4) (by decide) (by decide)⟩

/-- C2: on a day where the initial attempt and both retries all raise,
the day loop writes the CSV row with the empty price for that day,
writes the warning line built as `[WARN] <date>: <error>` from the last
error to the diagnostic stream, and continues to the next day: the run
still emits exactly one row for every day of the range. -/
theorem exhausted_day_degrades : ∀ s t att flag sr d day e1 e2 e3,
    parseStartDate s = some d → d.toOrdinal ≤ t → d.toOrdinal ≤ day → day ≤ t →
    att day 1 = AttemptResult.err e1 → att day 2 = AttemptResult.err e2 →
    att day 3 = AttemptResult.err e3 →
    ∃ out, runModel s t att flag sr = Except.ok out ∧
      out.rows.filter (fun r => r.1 == day) = [(day, "")] ∧
      warnLine day e3 ∈ out.warnings ∧
      out.rows.map Prod.fst =
        (List.range (t + 1 - d.toOrdinal)).map (fun i => d.toOrdinal + i) := by
  intro s t att flag sr d day e1 e2 e3 hp hle hlo hhi h1 h2 h3
  have hrow : (processDay (att day) flag (sr day) day).row = (day, "") := by
    unfold processDay
    rw [h1, h2, h3]
  have hwarn : (processDay (att day) flag (sr day) day).warnings = [warnLine day e3] := by
    unfold processDay
    rw [h1, h2, h3]
  refine ⟨dayLoopN att flag sr (t + 1 - d.toOrdinal) d.toOrdinal, ?_, ?_, ?_, ?_⟩
  · simp [runModel, hp, Nat.not_lt.mpr hle]
  · rw [dayLoopN_filter att flag sr day (t + 1 - d.toOrdinal) d.toOrdinal,
      if_pos (by omega), hrow]
  · exact dayLoopN_warn_mem att flag sr day (warnLine day e3) (t + 1 - d.toOrdinal)
      d.toOrdinal (by omega) (by omega) (by rw [hwarn]; simp)
  · exact dayLoopN_rows_fst att flag sr (t + 1 - d.toOrdinal) d.toOrdinal

/-- Witness for C2: a two-day run in which every attempt of every day
raises `"boom"`; the day checked is ordinal 738890 = 2024-01-05. -/
theorem exhausted_day_degrades_witness :
    parseStartDate "2024-01-04" = some (Date.mk 2024 1 4) ∧
    (fun _ _ => AttemptResult.err "boom" : Nat → Nat → AttemptResult) 738890 1 =
      AttemptResult.err "boom" ∧
    (∃ out, runModel "2024-01-04" 738890 (fun _ _ => AttemptResult.err "boom") false
        (fun _ _ => false) = Except.ok out ∧
      out.rows.filter (fun r => r.1 == 738890) = [(738890, "")] ∧
      warnLine 738890 "boom" ∈ out.warnings ∧
      out.rows.map Prod.fst =
        (List.range (738890 + 1 - (Date.mk 2024 1 4).toOrdinal)).map
          (fun i => (Date.mk 2024 1 4).toOrdinal + i)) :=
  ⟨by decide, rfl,
    exhausted_day_degrades "2024-01-04" 738890 (fun _ _ => AttemptResult.err "boom") false
      (fun _ _ => false) (Date.mk 2024 1 4) 738890 "boom" "boom" "boom" (by decide) (by decide)
      (by decide) (by decide) rfl rfl rfl⟩

/-- C7: when an earlier attempt of a day raises and a later attempt
within the fixed retry budget succeeds, exactly one row is written for
that day and it carries the successful attempt's scraped value, not the
empty string.  Both failure/success patterns of the three-attempt budget
are covered: failure at attempt 1 with success at attempt 2, and failure
at attempts 1 and 2 with success at the final attempt 3.  Between
attempts the loop sleeps the backoff base times the attempt number
(0.8 s after attempt 1, 1.6 s after attempt 2) and performs the
best-effort scroll-to-top reset, whose raising or not never changes
anything the run produces. -/
theorem retry_success_single_row :
    (∀ s t att flag sr d day e txt,
      parseStartDate s = some d → d.toOrdinal ≤ t → d.toOrdinal ≤ day → day ≤ t →
      att day 1 = AttemptResult.err e → att day 2 = AttemptResult.ok txt →
      (∃ out, runModel s t att flag sr = Except.ok out ∧
        out.rows.filter (fun r => r.1 == day) = [(day, applyClean flag txt)]) ∧
      (processDay (att day) flag (sr day) day).events =
        [Ev.sleepHundredths (BACKOFF_BASE_HUNDREDTHS * 1), Ev.scrollReset,
          Ev.sleepHundredths POLITE_DELAY_HUNDREDTHS]) ∧
    (∀ s t att flag sr d day e1 e2 txt,
      parseStartDate s = some d → d.toOrdinal ≤ t → d.toOrdinal ≤ day → day ≤ t →
      att day 1 = AttemptResult.err e1 → att day 2 = AttemptResult.err e2 →
      att day 3 = AttemptResult.ok txt →
      (∃ out, runModel s t att flag sr = Except.ok out ∧
        out.rows.filter (fun r => r.1 == day) = [(day, applyClean flag txt)]) ∧
      (processDay (att day) flag (sr day) day).events =
        [Ev.sleepHundredths (BACKOFF_BASE_HUNDREDTHS * 1), Ev.scrollReset,
          Ev.sleepHundredths (BACKOFF_BASE_HUNDREDTHS * 2), Ev.scrollReset,
          Ev.sleepHundredths POLITE_DELAY_HUNDREDTHS]) ∧
    (∀ s t att flag sr1 sr2, runModel s t att flag sr1 = runModel s t att flag sr2) := by
  refine ⟨?_, ?_, fun s t att flag sr1 sr2 => runModel_sr_indep s t att flag sr1 sr2⟩
  · intro s t att flag sr d day e txt hp hle hlo hhi h1 h2
    have hrow : (processDay (att day) flag (sr day) day).row = (day, applyClean flag txt) := by
      unfold processDay
      rw [h1, h2]
    refine ⟨⟨dayLoopN att flag sr (t + 1 - d.toOrdinal) d.toOrdinal, ?_, ?_⟩, ?_⟩
    · simp [runModel, hp, Nat.not_lt.mpr hle]
    · rw [dayLoopN_filter att flag sr day (t + 1 - d.toOrdinal) d.toOrdinal,
        if_pos (by omega), hrow]
    · unfold processDay
      rw [h1, h2]
      dsimp only
      rw [scrollResetEvs_eq]
      rfl
  · intro s t att flag sr d day e1 e2 txt hp hle hlo hhi h1 h2 h3
    have hrow : (processDay (att day) flag (sr day) day).row = (day, applyClean flag txt) := by
      unfold processDay
      rw [h1, h2, h3]
    refine ⟨⟨dayLoopN att flag sr (t + 1 - d.toOrdinal) d.toOrdinal, ?_, ?_⟩, ?_⟩
    · simp [runModel, hp, Nat.not_lt.mpr hle]
    · rw [dayLoopN_filter att flag sr day (t + 1 - d.toOrdinal) d.toOrdinal,
        if_pos (by omega), hrow]
    · unfold processDay
      rw [h1, h2, h3]
      dsimp only
      simp [scrollResetEvs_eq]

/-- Witness for C7: one-day runs (start 2024-01-05, today the same
ordinal 738890) in which the first attempt raises and the second
succeeds, and in which the first two attempts raise and the final
attempt succeeds. -/
theorem retry_success_single_row_witness :
    parseStartDate "2024-01-05" = some (Date.mk 2024 1 5) ∧
    ((∃ out, runModel "2024-01-05" 738890
        (fun _ k => if k = 1 then AttemptResult.err "x" else AttemptResult.ok "9.99") false
        (fun _ _ => false) = Except.ok out ∧
      out.rows.filter (fun r => r.1 == 738890) = [(738890, applyClean false "9.99")]) ∧
      (processDay ((fun _ k => if k = 1 then AttemptResult.err "x" else AttemptResult.ok "9.99"
          : Nat → Nat → AttemptResult) 738890) false
          ((fun _ _ => false : Nat → Nat → Bool) 738890) 738890).events =
        [Ev.sleepHundredths (BACKOFF_BASE_HUNDREDTHS * 1), Ev.scrollReset,
          Ev.sleepHundredths POLITE_DELAY_HUNDREDTHS]) ∧
    ((∃ out, runModel "2024-01-05" 738890
        (fun _ k => if k = 3 then AttemptResult.ok "7.77" else AttemptResult.err "y") false
        (fun _ _ => false) = Except.ok out ∧
      out.rows.filter (fun r => r.1 == 738890) = [(738890, applyClean false "7.77")]) ∧
      (processDay ((fun _ k => if k = 3 then AttemptResult.ok "7.77" else AttemptResult.err "y"
          : Nat → Nat → AttemptResult) 738890) false
          ((fun _ _ => false : Nat → Nat → Bool) 738890) 738890).events =
        [Ev.sleepHundredths (BACKOFF_BASE_HUNDREDTHS * 1), Ev.scrollReset,
          Ev.sleepHundredths (BACKOFF_BASE_HUNDREDTHS * 2), Ev.scrollReset,
          Ev.sleepHundredths POLITE_DELAY_HUNDREDTHS]) :=
  ⟨by decide,
    retry_success_single_row.1 "2024-01-05" 738890
      (fun _ k => if k = 1 then AttemptResult.err "x" else AttemptResult.ok "9.99") false
      (fun _ _ => false) (Date.mk 2024 1 5) 738890 "x" "9.99" (by decide) (by decide) (by decide)
      (by decide) rfl rfl,
    retry_success_single_row.2.1 "2024-01-05" 738890
      (fun _ k => if k = 3 then AttemptResult.ok "7.77" else AttemptResult.err "y") false
      (fun _ _ => false) (Date.mk 2024 1 5) 738890 "y" "y" "7.77" (by decide) (by decide)
      (by decide) (by decide) rfl rfl rfl⟩

end Scraper
